import Mathlib

/-! wholesomerng: content addressing and request routing

A shallow embedding of `main.go`.  Go strings are byte sequences, the `content`
map is an association list with at most one entry per key, the handlers are
functions on an explicit `ResponseWriter` value, and the variable `err` that the
"/" handler shares with `main` is threaded through as explicit state.

The standard-library functions the program calls (`strings.TrimPrefix`,
`strings.HasSuffix`, `md5.Sum`, `hex.EncodeToString`, `json.Marshal`, ...) are
embedded from their Go definitions (MD5 from RFC 1321).
-/

namespace Wholesome

/-! ## Go strings -/

/-- A Go `string`: an immutable sequence of bytes. -/
abbrev GoString := List UInt8

/-- An `error` value, identified with the message `Error()` returns. -/
abbrev GoError := List UInt8

/-- The bytes of a string literal of the source (UTF-8, as the Go compiler stores it). -/
def lit (s : String) : GoString := s.toUTF8.data.toList

/-! ## package strings -/

/-- Go `strings.HasPrefix(s, prefix)`: `len(s) >= len(prefix) && s[:len(prefix)] == prefix`. -/
def HasPrefix (s pfx : GoString) : Bool :=
  decide (s.length ≥ pfx.length) && decide (s.take pfx.length = pfx)

/-- Go `strings.HasSuffix(s, suffix)`:
`len(s) >= len(suffix) && s[len(s)-len(suffix):] == suffix`. -/
def HasSuffix (s suffix : GoString) : Bool :=
  decide (s.length ≥ suffix.length) && decide (s.drop (s.length - suffix.length) = suffix)

/-- Go `strings.TrimPrefix(s, prefix)`: `s[len(prefix):]` when `s` has the prefix, else `s`. -/
def TrimPrefix (s pfx : GoString) : GoString :=
  if HasPrefix s pfx then s.drop pfx.length else s

/-- Go `strings.TrimSuffix(s, suffix)`: `s[:len(s)-len(suffix)]` when `s` has the suffix,
else `s`. -/
def TrimSuffix (s suffix : GoString) : GoString :=
  if HasSuffix s suffix then s.take (s.length - suffix.length) else s

/-! ## package crypto/md5 (RFC 1321), on 32-bit words kept as naturals below `2 ^ 32` -/

/-- Little-endian bytes of a 32-bit word. -/
def le32 (x : Nat) : List Nat :=
  [x % 256, x / 256 % 256, x / 65536 % 256, x / 16777216 % 256]

/-- Little-endian bytes of a 64-bit word. -/
def le64 (x : Nat) : List Nat :=
  (List.range 8).map (fun j => x / 256 ^ j % 256)

/-- The 32-bit word stored little-endian in the first four bytes of `bs`. -/
def word (bs : List Nat) : Nat :=
  bs.getD 0 0 + 256 * bs.getD 1 0 + 65536 * bs.getD 2 0 + 16777216 * bs.getD 3 0

/-- Rotate a 32-bit word left by `s` bits. -/
def rotl (x s : Nat) : Nat :=
  ((x <<< s) ||| (x >>> (32 - s))) % 4294967296

/-- Bitwise complement of a 32-bit word. -/
def not32 (x : Nat) : Nat := 4294967295 - x

/-- Per-round shift amounts. -/
def md5S : List Nat :=
  [7, 12, 17, 22, 7, 12, 17, 22, 7, 12, 17, 22, 7, 12, 17, 22,
   5,  9, 14, 20, 5,  9, 14, 20, 5,  9, 14, 20, 5,  9, 14, 20,
   4, 11, 16, 23, 4, 11, 16, 23, 4, 11, 16, 23, 4, 11, 16, 23,
   6, 10, 15, 21, 6, 10, 15, 21, 6, 10, 15, 21, 6, 10, 15, 21]

/-- Per-round additive constants `floor(2^32 * |sin(i + 1)|)`. -/
def md5K : List Nat :=
  [0xd76aa478, 0xe8c7b756, 0x242070db, 0xc1bdceee, 0xf57c0faf, 0x4787c62a, 0xa8304613, 0xfd469501,
   0x698098d8, 0x8b44f7af, 0xffff5bb1, 0x895cd7be, 0x6b901122, 0xfd987193, 0xa679438e, 0x49b40821,
   0xf61e2562, 0xc040b340, 0x265e5a51, 0xe9b6c7aa, 0xd62f105d, 0x02441453, 0xd8a1e681, 0xe7d3fbc8,
   0x21e1cde6, 0xc33707d6, 0xf4d50d87, 0x455a14ed, 0xa9e3e905, 0xfcefa3f8, 0x676f02d9, 0x8d2a4c8a,
   0xfffa3942, 0x8771f681, 0x6d9d6122, 0xfde5380c, 0xa4beea44, 0x4bdecfa9, 0xf6bb4b60, 0xbebfbc70,
   0x289b7ec6, 0xeaa127fa, 0xd4ef3085, 0x04881d05, 0xd9d4d039, 0xe6db99e5, 0x1fa27cf8, 0xc4ac5665,
   0xf4292244, 0x432aff97, 0xab9423a7, 0xfc93a039, 0x655b59c3, 0x8f0ccc92, 0xffeff47d, 0x85845dd1,
   0x6fa87e4f, 0xfe2ce6e0, 0xa3014314, 0x4e0811a1, 0xf7537e82, 0xbd3af235, 0x2ad7d2bb, 0xeb86d391]

/-- The chaining value of MD5: four 32-bit words. -/
structure Digest where
  a : Nat
  b : Nat
  c : Nat
  d : Nat

/-- One of the 64 steps of the MD5 compression function on message words `m`. -/
def md5Round (m : List Nat) (st : Digest) (i : Nat) : Digest :=
  let f :=
    if i < 16 then (st.b &&& st.c) ||| (not32 st.b &&& st.d)
    else if i < 32 then (st.d &&& st.b) ||| (not32 st.d &&& st.c)
    else if i < 48 then st.b ^^^ st.c ^^^ st.d
    else st.c ^^^ (st.b ||| not32 st.d)
  let g :=
    if i < 16 then i
    else if i < 32 then (5 * i + 1) % 16
    else if i < 48 then (3 * i + 5) % 16
    else (7 * i) % 16
  let t := (f + st.a + md5K.getD i 0 + m.getD g 0) % 4294967296
  { a := st.d, d := st.c, c := st.b, b := (st.b + rotl t (md5S.getD i 0)) % 4294967296 }

/-- The MD5 compression function on one 64-byte block `p`. -/
def md5Block (st : Digest) (p : List Nat) : Digest :=
  let m := (List.range 16).map (fun j => word (p.drop (4 * j)))
  let r := (List.range 64).foldl (md5Round m) st
  { a := (st.a + r.a) % 4294967296, b := (st.b + r.b) % 4294967296,
    c := (st.c + r.c) % 4294967296, d := (st.d + r.d) % 4294967296 }

/-- MD5 padding: a `0x80` byte, zeros up to 56 modulo 64, the bit length in 64 bits. -/
def md5Pad (msg : List Nat) : List Nat :=
  msg ++ [128] ++ List.replicate ((119 - msg.length % 64) % 64) 0 ++ le64 (8 * msg.length % 2 ^ 64)

/-- Run the compression function over `n` consecutive 64-byte blocks of `p`. -/
def md5Blocks : Nat → Digest → List Nat → Digest
  | 0, st, _ => st
  | n + 1, st, p => md5Blocks n (md5Block st (p.take 64)) (p.drop 64)

/-- Go `md5.Sum(data)`: the 16-byte MD5 checksum of `data`. -/
def md5Sum (data : GoString) : GoString :=
  let p := md5Pad (data.map UInt8.toNat)
  let r := md5Blocks (p.length / 64) ⟨0x67452301, 0xefcdab89, 0x98badcfe, 0x10325476⟩ p
  (le32 r.a ++ le32 r.b ++ le32 r.c ++ le32 r.d).map UInt8.ofNat

/-! ## package encoding/hex -/

/-- The digit table of `encoding/hex`. -/
def hextable : GoString := lit "0123456789abcdef"

/-- Go `hex.EncodeToString(src)`: two lowercase hexadecimal digits per byte, high nibble
first. -/
def EncodeToString (src : GoString) : GoString :=
  src.flatMap (fun v => [hextable.getD (v.toNat / 16) 0, hextable.getD (v.toNat % 16) 0])

/-- A lowercase hexadecimal digit: `0` to `9` or `a` to `f`. -/
def isHexDigit (c : UInt8) : Bool :=
  (decide (0x30 ≤ c.toNat) && decide (c.toNat ≤ 0x39)) ||
    (decide (0x61 ≤ c.toNat) && decide (c.toNat ≤ 0x66))

/-! ## The content map -/

/-- The Go type `content`, a `map[string]string`, kept as its list of entries.  `set` keeps
at most one entry per key; iteration order carries no meaning. -/
structure content where
  entries : List (GoString × GoString)
deriving DecidableEq

/-- The empty map (`make(map[string]string)`, and also how a `nil` map reads). -/
def content.empty : content := ⟨[]⟩

/-- The read `val, ok := m[k]`: `none` when `ok` is false. -/
def content.get (m : content) (k : GoString) : Option GoString :=
  (m.entries.find? (fun e => decide (e.1 = k))).map Prod.snd

/-- The assignment `m[k] = v`: an existing entry for `k` is replaced. -/
def content.set (m : content) (k v : GoString) : content :=
  ⟨(k, v) :: m.entries.filter (fun e => !decide (e.1 = k))⟩

/-- Go `len(m)`. -/
def content.len (m : content) : Nat := m.entries.length

/-- The keys of the map, each one once for maps built by `set`. -/
def content.keys (m : content) : List GoString := m.entries.map Prod.fst

/-- The hash main.go gives a line: `hex.EncodeToString` of `md5.Sum` of its bytes. -/
def lineHash (line : GoString) : GoString :=
  let rawHash := md5Sum line
  EncodeToString rawHash

/-- The loop of `parseLines`, started from any map. -/
def storeAll (m : content) (lines : List GoString) : content :=
  lines.foldl (fun content line => content.set (lineHash line) line) m

/-- Source `parseLines`: every line is stored under its hash; the error is always `nil`. -/
def parseLines (lines : List GoString) : content × Option GoError :=
  (lines.foldl (fun content line =>
      let rawHash := md5Sum line
      let hash := EncodeToString rawHash
      content.set hash line) content.empty, none)

/-! ## Path decomposition -/

/-- Source `parseHash`: three successive `TrimSuffix` calls after one `TrimPrefix`. -/
def parseHash (path : GoString) : GoString :=
  let path := TrimPrefix path (lit "/")
  let path := TrimSuffix path (lit ".html")
  let path := TrimSuffix path (lit ".json")
  let path := TrimSuffix path (lit ".txt")
  path

/-- Source `parseContentType`. -/
def parseContentType (path : GoString) : GoString :=
  if HasSuffix path (lit ".txt") then lit "text/plain"
  else if HasSuffix path (lit ".json") then lit "application/json"
  else lit "text/html"

/-! ## package unicode/utf8 and the string encoder of encoding/json -/

/-- The rune `utf8.RuneError`, U+FFFD. -/
def RuneError : Nat := 0xFFFD

/-- Whether `b` lies in the byte range `lo..hi`. -/
def inRange (b : UInt8) (lo hi : Nat) : Bool :=
  decide (lo ≤ b.toNat) && decide (b.toNat ≤ hi)

/-- Go `utf8.DecodeRuneInString(s)`: the first rune of `s` and its width in bytes;
`(RuneError, 1)` on an invalid or truncated encoding, `(RuneError, 0)` on the empty string. -/
def DecodeRuneInString (s : GoString) : Nat × Nat :=
  match s with
  | [] => (RuneError, 0)
  | b0 :: rest =>
    let x := b0.toNat
    if x < 0x80 then (x, 1)
    else if inRange b0 0xC2 0xDF then
      match rest with
      | b1 :: _ =>
        if inRange b1 0x80 0xBF then (x % 32 * 64 + b1.toNat % 64, 2) else (RuneError, 1)
      | [] => (RuneError, 1)
    else if inRange b0 0xE0 0xEF then
      let lo := if x = 0xE0 then 0xA0 else 0x80
      let hi := if x = 0xED then 0x9F else 0xBF
      match rest with
      | b1 :: b2 :: _ =>
        if inRange b1 lo hi && inRange b2 0x80 0xBF then
          (x % 16 * 4096 + b1.toNat % 64 * 64 + b2.toNat % 64, 3)
        else (RuneError, 1)
      | _ => (RuneError, 1)
    else if inRange b0 0xF0 0xF4 then
      let lo := if x = 0xF0 then 0x90 else 0x80
      let hi := if x = 0xF4 then 0x8F else 0xBF
      match rest with
      | b1 :: b2 :: b3 :: _ =>
        if inRange b1 lo hi && inRange b2 0x80 0xBF && inRange b3 0x80 0xBF then
          (x % 8 * 262144 + b1.toNat % 64 * 4096 + b2.toNat % 64 * 64 + b3.toNat % 64, 4)
        else (RuneError, 1)
      | _ => (RuneError, 1)
    else (RuneError, 1)

/-- The table `htmlSafeSet` of encoding/json: the ASCII bytes written unescaped when HTML
escaping is on (what `json.Marshal` uses): `0x20` to `0x7f` except the double quote, the
ampersand, the angle brackets and the backslash. -/
def htmlSafeSet (b : UInt8) : Bool :=
  decide (0x20 ≤ b.toNat) && decide (b.toNat < 0x80) &&
    !(b.toNat == 0x22 || b.toNat == 0x26 || b.toNat == 0x3C || b.toNat == 0x3E ||
      b.toNat == 0x5C)

/-- A printable ASCII character (`0x20` to `0x7e`) other than the double quote, the
backslash, the angle brackets and the ampersand. -/
def isPlain (c : UInt8) : Bool :=
  decide (0x20 ≤ c.toNat) && decide (c.toNat ≤ 0x7E) &&
    !(c.toNat == 0x22 || c.toNat == 0x5C || c.toNat == 0x3C || c.toNat == 0x3E ||
      c.toNat == 0x26)

/-- The escape encoding/json writes for an ASCII byte outside `htmlSafeSet`: a backslash
before the quote and the backslash, the short forms for newline, carriage return and tab,
and `\u00XX` for the rest (the other control characters and the HTML characters). -/
def escapeByte (b : UInt8) : GoString :=
  if b.toNat = 0x5C ∨ b.toNat = 0x22 then lit "\\" ++ [b]
  else if b.toNat = 0x0A then lit "\\n"
  else if b.toNat = 0x0D then lit "\\r"
  else if b.toNat = 0x09 then lit "\\t"
  else lit "\\u00" ++ [hextable.getD (b.toNat / 16) 0, hextable.getD (b.toNat % 16) 0]

/-- The body of the loop of `encodeState.string` of encoding/json with HTML escaping on:
the characters of `s` between the quotes.  The first argument bounds the number of
iterations; `s.length` is always enough, every iteration consuming at least one byte. -/
def escapeString : Nat → GoString → GoString
  | 0, _ => []
  | _, [] => []
  | fuel + 1, b :: rest =>
    if b.toNat < 0x80 then
      if htmlSafeSet b then b :: escapeString fuel rest
      else escapeByte b ++ escapeString fuel rest
    else
      let (c, size) := DecodeRuneInString (b :: rest)
      if c = RuneError ∧ size = 1 then lit "\\ufffd" ++ escapeString fuel rest
      else if c = 0x2028 ∨ c = 0x2029 then
        lit "\\u202" ++ [hextable.getD (c % 16) 0] ++ escapeString fuel (rest.drop (size - 1))
      else (b :: rest).take size ++ escapeString fuel (rest.drop (size - 1))

/-- A Go string as encoding/json marshals it: quoted and escaped. -/
def marshalString (s : GoString) : GoString :=
  lit "\"" ++ escapeString s.length s ++ lit "\""

/-- Go `json.Marshal(&c)` for the struct of `renderJSON`, fields `Line` (tag "line") and
`Hash` (tag "hash") in declaration order.  Marshalling two strings cannot fail. -/
def jsonMarshal (line hash : GoString) : GoString :=
  lit "\x7b\"line\":" ++ marshalString line ++ lit ",\"hash\":" ++ marshalString hash ++ lit "\x7d"

/-! ## The response writer -/

/-- The response a handler builds on its `http.ResponseWriter`, as net/http sends it.
`code` is the status of the response header once that header is written (`none` before):
the first `WriteHeader` or the first `Write` writes it, and it is written once.
`contentType` is the Content-Type of the response header: what the handler set last before
the header was written.  `body` is the bytes written, and `writeErr` the error `Write`
reports on this connection (`none` for a healthy one). -/
structure ResponseWriter where
  contentType : Option GoString
  code : Option Nat
  body : GoString
  writeErr : Option GoError
deriving DecidableEq

/-- The writer net/http hands to a handler. -/
def ResponseWriter.fresh (writeErr : Option GoError) : ResponseWriter :=
  ⟨none, none, [], writeErr⟩

/-- The call `rw.Header().Set("Content-Type", v)`.  Once the response header is written a
change of the header map no longer reaches the response. -/
def ResponseWriter.setContentType (w : ResponseWriter) (v : GoString) : ResponseWriter :=
  match w.code with
  | some _ => w
  | none => { w with contentType := some v }

/-- The call `w.WriteHeader(code)`: writes the response header with this status, unless
the header is written already (net/http then ignores the call). -/
def ResponseWriter.WriteHeader (w : ResponseWriter) (code : Nat) : ResponseWriter :=
  match w.code with
  | some _ => w
  | none => { w with code := some code }

/-- The call `w.Write(b)`: a first write begins with `WriteHeader(200)`; then `b` is
appended, or the connection's error reported. -/
def ResponseWriter.Write (w : ResponseWriter) (b : GoString) : ResponseWriter × Option GoError :=
  let w := w.WriteHeader 200
  match w.writeErr with
  | some e => (w, some e)
  | none => ({ w with body := w.body ++ b }, none)

/-- Go `fmt.Fprintln(w, s)` with its results ignored, as main.go calls it. -/
def Fprintln (w : ResponseWriter) (s : GoString) : ResponseWriter :=
  (w.Write (s ++ lit "\n")).1

/-- The status of the response: the one its header was written with, and 200 for a handler
that returns without writing anything (net/http then writes the header itself). -/
def ResponseWriter.status (w : ResponseWriter) : Nat := w.code.getD 200

/-- Go `http.Error(w, error, code)`: sets the plain-text content type, calls
`WriteHeader(code)`, prints the message and a newline.  After an earlier write the first
two have no effect on the response and the message is appended to its body. -/
def httpError (w : ResponseWriter) (error : GoString) (code : Nat) : ResponseWriter :=
  let w := w.setContentType (lit "text/plain; charset=utf-8")
  let w := w.WriteHeader code
  Fprintln w error

/-- Source `failRequest` (the log entry is not modelled). -/
def failRequest (rw : ResponseWriter) (err : GoError) (statusCode : Nat) : ResponseWriter :=
  httpError rw err statusCode

/-- Source `renderJSON`: marshal, then hand the bytes to `w.Write` and return its error. -/
def renderJSON (w : ResponseWriter) (hash line : GoString) : ResponseWriter × Option GoError :=
  let b := jsonMarshal line hash
  w.Write b

/-- Source `renderHTML`.  `page hash line` stands for parsing `tpl` and executing it on
`Hash` and `Line` with html/template: the markup, or the error of `Parse` or `Execute`. -/
def renderHTML (page : GoString → GoString → Except GoError GoString) (w : ResponseWriter)
    (hash line : GoString) : ResponseWriter × Option GoError :=
  match page hash line with
  | .error err => (w, some err)
  | .ok b => w.Write b

/-! ## The handlers -/

/-- The constant `humans` of main.go. -/
def humans : GoString :=
  lit "/* TEAM */\nDeveloper: Nick Gerakines\nSite: http://ngerakines.me/\n" ++
  lit "Twitter: @ngerakines\nLocation: Dayton, OH\n\n/* SITE */\n" ++
  lit "Last update: 2017/09/28 (Happy birthday Vanessa!)\nStandards: HTML5, CSS3\n" ++
  lit "Software: Visual Studio Code, Golang\n\n/* SOURCE */\n" ++
  lit "Source: https://github.com/ngerakines/wholesome\nLicense: MIT"

/-- The part of an `*http.Request` the handlers read: `r.Method` and `r.URL.Path`. -/
structure Request where
  method : GoString
  path : GoString
deriving DecidableEq

/-- The loop `for k := range data { keys = append(keys, k) }` of `main`; `order` is the
order in which the `range` delivers the keys of the map. -/
def buildKeys (order : List GoString) : List GoString :=
  order.foldl (fun keys k => keys ++ [k]) []

/-- Content resolution of the "/" handler (main.go lines 171-179): the entry of the
candidate `hash` when it is a key, else the entry of `keys[intn]`, where `intn` is what
`rand.Intn(len(keys))` returned.  `none` is the index-out-of-range panic.  The result is
the pair `(hash, line)` of the handler's variables after the `if`. -/
def resolve (data : content) (keys : List GoString) (intn : Nat) (hash : GoString) :
    Option (GoString × GoString) :=
  match data.get hash with
  | some val => some (hash, val)
  | none =>
    match keys[intn]? with
    | none => none
    | some hash => some (hash, (data.get hash).getD [])

/-- The render switch of the "/" handler (main.go lines 181-191) on the shared variable
`err`: the JSON and HTML cases assign `err`, the plain-text case leaves it as it was. -/
def render (page : GoString → GoString → Except GoError GoString) (contentType : GoString)
    (err : Option GoError) (rw : ResponseWriter) (hash line : GoString) :
    ResponseWriter × Option GoError :=
  if contentType = lit "application/json" then
    renderJSON (rw.setContentType contentType) hash line
  else if contentType = lit "text/plain" then
    (Fprintln (rw.setContentType contentType) line, err)
  else
    renderHTML page (rw.setContentType (lit "text/html")) hash line

/-- The error check that ends the "/" handler (main.go lines 193-198) on the writer and the
value of `err` the render switch left: `failRequest` with 500 when `err` is not nil. -/
def checkErr (r : ResponseWriter × Option GoError) : ResponseWriter × Option GoError :=
  match r with
  | (rw, some e) => (failRequest rw e 500, some e)
  | (rw, none) => (rw, none)

/-- The handler main.go registers for "/".  `err` is the variable `err` of `main` that the
closure captures: its value when the request arrives goes in, its value when the handler
returns comes out next to the writer.  `none` is a panic. -/
def rootHandler (page : GoString → GoString → Except GoError GoString) (data : content)
    (keys : List GoString) (err : Option GoError) (intn : Nat) (rw : ResponseWriter)
    (r : Request) : Option (ResponseWriter × Option GoError) :=
  let path := r.path
  if r.method ≠ lit "GET" then
    some (failRequest rw (lit "unsupported method") 405, err)
  else
    let contentType := parseContentType path
    match resolve data keys intn (parseHash path) with
    | none => none
    | some (hash, line) =>
      some (checkErr (render page contentType err rw hash line))

/-- The handler main.go registers for "/humans.txt". -/
def humansHandler (rw : ResponseWriter) (_r : Request) : ResponseWriter :=
  Fprintln (rw.setContentType (lit "text/plain")) humans

/-- The `ServeMux` of `main` with its two patterns: "/humans.txt" matches that path only,
"/" matches every other path.  `r.path` is the path as the mux hands it to a handler; the
redirect the mux itself answers to a path that is not clean is not part of the model. -/
def ServeHTTP (page : GoString → GoString → Except GoError GoString) (data : content)
    (keys : List GoString) (err : Option GoError) (intn : Nat) (rw : ResponseWriter)
    (r : Request) : Option (ResponseWriter × Option GoError) :=
  if r.path = lit "/humans.txt" then some (humansHandler rw r, err)
  else rootHandler page data keys err intn rw r

/-- One request together with what its surroundings answer while it is handled: the value
of `rand.Intn(len(keys))` and the error of `Write` on its connection. -/
structure Exchange where
  req : Request
  intn : Nat
  writeErr : Option GoError

/-- The server handling requests one after another, from the value `err` has when the
first arrives: the writers the handlers leave behind, `none` for a handler that panicked
(net/http recovers the panic; `err` keeps its value). -/
def serveAll (page : GoString → GoString → Except GoError GoString) (data : content)
    (keys : List GoString) : Option GoError → List Exchange → List (Option ResponseWriter)
  | _, [] => []
  | err, x :: xs =>
    match ServeHTTP page data keys err x.intn (ResponseWriter.fresh x.writeErr) x.req with
    | none => none :: serveAll page data keys err xs
    | some (rw, err') => some rw :: serveAll page data keys err' xs

/-! ## Loading and startup -/

/-- A `bufio.Scanner` after the scan loop: the tokens `Text()` gave, and `Err()`. -/
structure Scanner where
  tokens : List GoString
  err : Option GoError

/-- Source `scanContent`: collect the lines, give up on a scan error, else `parseLines`. -/
def scanContent (scanner : Scanner) : content × Option GoError :=
  let lines := scanner.tokens.foldl (fun lines text => lines ++ [text]) []
  match scanner.err with
  | some err => (content.empty, some err)
  | none => parseLines lines

/-- Source `loadFile`; `osOpen` stands for `os.Open` followed by `bufio.NewScanner`. -/
def loadFile (osOpen : GoString → Except GoError Scanner) (path : GoString) :
    content × Option GoError :=
  match osOpen path with
  | .error err => (content.empty, some err)
  | .ok scanner => scanContent scanner

/-- Source `loadStdin`. -/
def loadStdin (stdin : Scanner) : content × Option GoError :=
  scanContent stdin

/-- How `main` ends its startup. -/
inductive Startup where
  | errorLoading (err : GoError)
  | dataIsEmpty
  | serving (data : content)
deriving DecidableEq

/-- The two checks of `main` on the loaded `data` and `err` (main.go lines 120-138):
`Fatal("Error loading data.")`, `Fatal("Data is empty")`, or on to serving. -/
def startupCheck (loaded : content × Option GoError) : Startup :=
  match loaded.2 with
  | some err => Startup.errorLoading err
  | none => if loaded.1.len = 0 then Startup.dataIsEmpty else Startup.serving loaded.1

/-- The loading part of `main` (main.go lines 111-119) followed by its checks. -/
def mainStartup (useStdin : Bool) (sourceFile : GoString) (stdin : Scanner)
    (osOpen : GoString → Except GoError Scanner) : Startup :=
  let loaded : content × Option GoError := (content.empty, none)
  let loaded := if useStdin then loadStdin stdin else loaded
  let loaded := if sourceFile.length > 0 then loadFile osOpen sourceFile else loaded
  startupCheck loaded

/-! ## Facts about the string functions -/

theorem lit_slash : lit "/" = [47] := by decide

theorem lit_html : lit ".html" = [46, 104, 116, 109, 108] := by decide

theorem lit_json : lit ".json" = [46, 106, 115, 111, 110] := by decide

theorem lit_txt : lit ".txt" = [46, 116, 120, 116] := by decide

theorem HasSuffix_iff (s x : GoString) : HasSuffix s x = true ↔ x <:+ s := by
  unfold HasSuffix
  simp only [Bool.and_eq_true, decide_eq_true_eq]
  constructor
  · rintro ⟨_, h⟩
    exact List.suffix_iff_eq_drop.mpr h.symm
  · intro h
    exact ⟨h.length_le, (List.suffix_iff_eq_drop.mp h).symm⟩

theorem HasPrefix_iff (s p : GoString) : HasPrefix s p = true ↔ p <+: s := by
  unfold HasPrefix
  simp only [Bool.and_eq_true, decide_eq_true_eq]
  constructor
  · rintro ⟨_, h⟩
    exact List.prefix_iff_eq_take.mpr h.symm
  · intro h
    exact ⟨h.length_le, (List.prefix_iff_eq_take.mp h).symm⟩

theorem TrimSuffix_append (t x : GoString) : TrimSuffix (t ++ x) x = t := by
  have h : HasSuffix (t ++ x) x = true := (HasSuffix_iff _ _).mpr (List.suffix_append t x)
  simp [TrimSuffix, h]

theorem TrimSuffix_of_not_suffix (s x : GoString) (h : ¬ x <:+ s) : TrimSuffix s x = s := by
  have h' : HasSuffix s x = false := by
    rw [← Bool.not_eq_true, HasSuffix_iff]
    exact h
  simp [TrimSuffix, h']

theorem TrimPrefix_append (p t : GoString) : TrimPrefix (p ++ t) p = t := by
  have h : HasPrefix (p ++ t) p = true := (HasPrefix_iff _ _).mpr (List.prefix_append p t)
  simp [TrimPrefix, h]

theorem TrimPrefix_of_not_pre (s p : GoString) (h : ¬ p <+: s) : TrimPrefix s p = s := by
  have h' : HasPrefix s p = false := by
    rw [← Bool.not_eq_true, HasPrefix_iff]
    exact h
  simp [TrimPrefix, h']

/-- A suffix with last byte `c` is not a suffix of a string that does not end in `c`. -/
theorem not_suffix_of_getLast? {x s : GoString} {c : UInt8} (hx : x.getLast? = some c)
    (hs : s.getLast? ≠ some c) : ¬ x <:+ s := by
  rintro ⟨t, rfl⟩
  apply hs
  rw [List.getLast?_append, hx]
  rfl

theorem getLast?_html : (lit ".html").getLast? = some 108 := by decide

theorem getLast?_json : (lit ".json").getLast? = some 110 := by decide

theorem getLast?_txt : (lit ".txt").getLast? = some 116 := by decide

theorem getLast?_append_lit {x : GoString} {c : UInt8} (hx : x.getLast? = some c) (t : GoString) :
    (t ++ x).getLast? = some c := by
  rw [List.getLast?_append, hx]
  rfl

/-- The three recognised suffixes end in three different bytes, so a string ending in one of
them ends in no other. -/
theorem not_suffix_append {x y : GoString} {c d : UInt8} (hx : x.getLast? = some c)
    (hy : y.getLast? = some d) (hcd : d ≠ c) (t : GoString) : ¬ x <:+ t ++ y := by
  apply not_suffix_of_getLast? hx
  rw [getLast?_append_lit hy]
  intro h
  exact hcd (Option.some.inj h)

theorem HasSuffix_eq_false {s x : GoString} (h : ¬ x <:+ s) : HasSuffix s x = false := by
  rw [← Bool.not_eq_true, HasSuffix_iff]
  exact h

theorem parseContentType_txt (path : GoString) (h : lit ".txt" <:+ path) :
    parseContentType path = lit "text/plain" := by
  simp [parseContentType, (HasSuffix_iff _ _).mpr h]

theorem parseContentType_json (path : GoString) (h : lit ".json" <:+ path) :
    parseContentType path = lit "application/json" := by
  obtain ⟨t, rfl⟩ := h
  have h1 : HasSuffix (t ++ lit ".json") (lit ".txt") = false :=
    HasSuffix_eq_false (not_suffix_append getLast?_txt getLast?_json (by decide) t)
  have h2 := (HasSuffix_iff _ _).mpr (List.suffix_append t (lit ".json"))
  simp [parseContentType, h1, h2]

theorem parseContentType_other (path : GoString) (h1 : ¬ lit ".txt" <:+ path)
    (h2 : ¬ lit ".json" <:+ path) : parseContentType path = lit "text/html" := by
  simp [parseContentType, HasSuffix_eq_false h1, HasSuffix_eq_false h2]

/-! ## C4: parseHash -/

/-- C4, counterexample: the remainder of "/abc.txt.json.html" ends in ".html", and parseHash
does not return it with only that suffix removed ("abc.txt.json"): it returns "abc". -/
theorem parseHash_single_suffix_counterexample :
    lit ".html" <:+ TrimPrefix (lit "/abc.txt.json.html") (lit "/") ∧
    TrimPrefix (lit "/abc.txt.json.html") (lit "/") = lit "abc.txt.json" ++ lit ".html" ∧
    parseHash (lit "/abc.txt.json.html") ≠ lit "abc.txt.json" ∧
    parseHash (lit "/abc.txt.json.html") = lit "abc" := by
  decide

/-- C4, amended: parseHash removes one leading "/" (if present) and then makes three
removals in a fixed order, each at most once: a trailing ".html", then a trailing ".json",
then a trailing ".txt".  A remainder ending in none of them is returned whole; from
`t ++ ".txt"` the result is `t`; from `t ++ ".json"` it is `t` less one trailing ".txt";
from `t ++ ".html"` it is `t` less one trailing ".json" and then less one trailing ".txt".
So exactly one suffix is removed whenever what is left of the remainder does not end in a
suffix that comes later in the order. -/
theorem parseHash_strips_in_order (path : GoString) :
    (∀ t, path = lit "/" ++ t → TrimPrefix path (lit "/") = t) ∧
    (¬ lit "/" <+: path → TrimPrefix path (lit "/") = path) ∧
    (¬ lit ".html" <:+ TrimPrefix path (lit "/") → ¬ lit ".json" <:+ TrimPrefix path (lit "/") →
      ¬ lit ".txt" <:+ TrimPrefix path (lit "/") → parseHash path = TrimPrefix path (lit "/")) ∧
    (∀ t, TrimPrefix path (lit "/") = t ++ lit ".txt" → parseHash path = t) ∧
    (∀ t, TrimPrefix path (lit "/") = t ++ lit ".json" →
      parseHash path = TrimSuffix t (lit ".txt")) ∧
    (∀ t, TrimPrefix path (lit "/") = t ++ lit ".html" →
      parseHash path = TrimSuffix (TrimSuffix t (lit ".json")) (lit ".txt")) ∧
    (∀ t, TrimPrefix path (lit "/") = t ++ lit ".json" → ¬ lit ".txt" <:+ t →
      parseHash path = t) ∧
    (∀ t, TrimPrefix path (lit "/") = t ++ lit ".html" → ¬ lit ".json" <:+ t →
      ¬ lit ".txt" <:+ t → parseHash path = t) := by
  have e : parseHash path = TrimSuffix (TrimSuffix (TrimSuffix
      (TrimPrefix path (lit "/")) (lit ".html")) (lit ".json")) (lit ".txt") := rfl
  refine ⟨?_, ?_, ?_, ?_, ?_, ?_, ?_, ?_⟩
  · rintro t rfl
    exact TrimPrefix_append _ _
  · exact TrimPrefix_of_not_pre _ _
  · intro h1 h2 h3
    rw [e, TrimSuffix_of_not_suffix _ _ h1, TrimSuffix_of_not_suffix _ _ h2,
      TrimSuffix_of_not_suffix _ _ h3]
  · intro t ht
    rw [e, ht, TrimSuffix_of_not_suffix _ _ (not_suffix_append getLast?_html getLast?_txt
        (by decide) t),
      TrimSuffix_of_not_suffix _ _ (not_suffix_append getLast?_json getLast?_txt (by decide) t),
      TrimSuffix_append]
  · intro t ht
    rw [e, ht, TrimSuffix_of_not_suffix _ _ (not_suffix_append getLast?_html getLast?_json
        (by decide) t), TrimSuffix_append]
  · intro t ht
    rw [e, ht, TrimSuffix_append]
  · intro t ht h3
    rw [e, ht, TrimSuffix_of_not_suffix _ _ (not_suffix_append getLast?_html getLast?_json
        (by decide) t), TrimSuffix_append, TrimSuffix_of_not_suffix _ _ h3]
  · intro t ht h2 h3
    rw [e, ht, TrimSuffix_append, TrimSuffix_of_not_suffix _ _ h2,
      TrimSuffix_of_not_suffix _ _ h3]

/-- C4, the amended statement at two concrete paths: "/abc.html.json" loses its slash and
the one suffix ".json", "/abc.txt.json.html" loses all three suffixes. -/
theorem parseHash_strips_in_order_witness :
    parseHash (lit "/abc.html.json") = lit "abc.html" ∧
    parseHash (lit "/abc.txt.json.html") =
      TrimSuffix (TrimSuffix (lit "abc.txt.json") (lit ".json")) (lit ".txt") :=
  ⟨(parseHash_strips_in_order (lit "/abc.html.json")).2.2.2.2.2.2.1 (lit "abc.html")
      (by decide) (by decide),
    (parseHash_strips_in_order (lit "/abc.txt.json.html")).2.2.2.2.2.1 (lit "abc.txt.json")
      (by decide)⟩

/-! ## C7: parseContentType -/

/-- C7: parseContentType returns "text/plain" for a path ending in ".txt",
"application/json" for a path ending in ".json", and "text/html" for every other path, among
them the paths ending in ".html" and the paths without a recognised suffix; the result is
always one of the three. -/
theorem parseContentType_spec (path : GoString) :
    (lit ".txt" <:+ path → parseContentType path = lit "text/plain") ∧
    (lit ".json" <:+ path → parseContentType path = lit "application/json") ∧
    (¬ lit ".txt" <:+ path → ¬ lit ".json" <:+ path → parseContentType path = lit "text/html") ∧
    (lit ".html" <:+ path → parseContentType path = lit "text/html") ∧
    (parseContentType path = lit "text/plain" ∨ parseContentType path = lit "application/json" ∨
      parseContentType path = lit "text/html") := by
  refine ⟨parseContentType_txt path, parseContentType_json path,
    parseContentType_other path, ?_, ?_⟩
  · rintro ⟨t, rfl⟩
    exact parseContentType_other _ (not_suffix_append getLast?_txt getLast?_html (by decide) t)
      (not_suffix_append getLast?_json getLast?_html (by decide) t)
  · unfold parseContentType
    split
    · exact Or.inl rfl
    · split
      · exact Or.inr (Or.inl rfl)
      · exact Or.inr (Or.inr rfl)

/-- C7 at concrete paths: one for each suffix, one without a suffix. -/
theorem parseContentType_spec_witness :
    parseContentType (lit "/abc.txt") = lit "text/plain" ∧
    parseContentType (lit "/abc.json") = lit "application/json" ∧
    parseContentType (lit "/abc.html") = lit "text/html" ∧
    parseContentType (lit "/abc") = lit "text/html" :=
  ⟨(parseContentType_spec (lit "/abc.txt")).1 (by decide),
    (parseContentType_spec (lit "/abc.json")).2.1 (by decide),
    (parseContentType_spec (lit "/abc.html")).2.2.2.1 (by decide),
    (parseContentType_spec (lit "/abc")).2.2.1 (by decide) (by decide)⟩

/-! ## Facts about the content map -/

theorem content.get_set (m : content) (k v k' : GoString) :
    (m.set k v).get k' = if k = k' then some v else m.get k' := by
  unfold content.get content.set
  by_cases h : k = k'
  · simp [h]
  · have hf : ∀ l : List (GoString × GoString),
        (l.filter (fun e => !decide (e.1 = k))).find? (fun e => decide (e.1 = k')) =
          l.find? (fun e => decide (e.1 = k')) := by
      intro l
      induction l with
      | nil => rfl
      | cons e l ih =>
        by_cases he : e.1 = k
        · have hne : ¬ e.1 = k' := fun h' => h (he ▸ h')
          rw [List.filter_cons_of_neg (by simpa using he),
            List.find?_cons_of_neg _ (by simpa using hne), ih]
        · rw [List.filter_cons_of_pos (by simpa using he)]
          by_cases he' : e.1 = k'
          · rw [List.find?_cons_of_pos _ (by simpa using he'),
              List.find?_cons_of_pos _ (by simpa using he')]
          · rw [List.find?_cons_of_neg _ (by simpa using he'),
              List.find?_cons_of_neg _ (by simpa using he'), ih]
    simp [List.find?_cons, h, hf]

theorem content.mem_keys_iff (m : content) (k : GoString) :
    k ∈ m.keys ↔ ∃ v, m.get k = some v := by
  unfold content.keys content.get
  constructor
  · intro h
    obtain ⟨e, he, hk⟩ := List.mem_map.mp h
    have hs : (m.entries.find? (fun e => decide (e.1 = k))).isSome := by
      rw [List.find?_isSome]
      exact ⟨e, he, by simpa using hk⟩
    obtain ⟨e', he'⟩ := Option.isSome_iff_exists.mp hs
    exact ⟨e'.2, by rw [he']; rfl⟩
  · rintro ⟨v, hv⟩
    cases hf : m.entries.find? (fun e => decide (e.1 = k)) with
    | none => rw [hf] at hv; cases hv
    | some e =>
      have h1 := List.mem_of_find?_eq_some hf
      have h2 := List.find?_some hf
      exact List.mem_map.mpr ⟨e, h1, by simpa using h2⟩

theorem content.keys_set_nodup (m : content) (k v : GoString) (h : m.keys.Nodup) :
    (m.set k v).keys.Nodup := by
  unfold content.keys content.set at *
  simp only [List.map_cons, List.nodup_cons]
  constructor
  · intro hk
    obtain ⟨e, he, hek⟩ := List.mem_map.mp hk
    have := (List.mem_filter.mp he).2
    simp [hek] at this
  · exact h.sublist ((List.filter_sublist _).map _)

theorem content.len_set_pos (m : content) (k v : GoString) : 1 ≤ (m.set k v).len := by
  simp [content.len, content.set]

theorem content.len_set_le (m : content) (k v : GoString) : (m.set k v).len ≤ m.len + 1 := by
  simp only [content.len, content.set, List.length_cons, Nat.add_le_add_iff_right]
  exact List.length_filter_le _ _

theorem parseLines_eq (lines : List GoString) :
    parseLines lines = (storeAll content.empty lines, none) := rfl

theorem head?_filter_eq_find? {α : Type} (p : α → Bool) (l : List α) :
    (l.filter p).head? = l.find? p := by
  induction l with
  | nil => rfl
  | cons a l ih =>
    by_cases h : p a
    · simp [List.filter_cons, List.find?_cons, h]
    · simp [List.filter_cons, List.find?_cons, h, ih]

theorem getLast?_filter_eq_find? {α : Type} (p : α → Bool) (l : List α) :
    (l.filter p).getLast? = l.reverse.find? p := by
  rw [List.getLast?_eq_head?_reverse, ← List.filter_reverse, head?_filter_eq_find?]

theorem storeAll_get (lines : List GoString) (m : content) (k : GoString) :
    (storeAll m lines).get k =
      ((lines.filter (fun l => decide (lineHash l = k))).getLast?).or (m.get k) := by
  induction lines generalizing m with
  | nil => simp [storeAll]
  | cons l ls ih =>
    have hstep : storeAll m (l :: ls) = storeAll (m.set (lineHash l) l) ls := rfl
    rw [hstep, ih, content.get_set]
    rw [getLast?_filter_eq_find?, getLast?_filter_eq_find?, List.reverse_cons, List.find?_append]
    cases hfind : ls.reverse.find? (fun l => decide (lineHash l = k)) with
    | some w => simp
    | none =>
      by_cases h : lineHash l = k
      · simp [h]
      · simp [h]

theorem storeAll_keys_nodup (lines : List GoString) (m : content) (h : m.keys.Nodup) :
    (storeAll m lines).keys.Nodup := by
  induction lines generalizing m with
  | nil => exact h
  | cons l ls ih => exact ih _ (content.keys_set_nodup m _ _ h)

theorem storeAll_len_le (lines : List GoString) (m : content) :
    (storeAll m lines).len ≤ m.len + lines.length := by
  induction lines generalizing m with
  | nil => simp [storeAll]
  | cons l ls ih =>
    have h1 := ih (m.set (lineHash l) l)
    have h2 := content.len_set_le m (lineHash l) l
    have hstep : storeAll m (l :: ls) = storeAll (m.set (lineHash l) l) ls := rfl
    rw [hstep, List.length_cons]
    omega

theorem storeAll_len_pos (lines : List GoString) (m : content) (h : 1 ≤ m.len ∨ lines ≠ []) :
    1 ≤ (storeAll m lines).len := by
  induction lines generalizing m with
  | nil =>
    rcases h with h | h
    · exact h
    · exact absurd rfl h
  | cons l ls ih => exact ih _ (Or.inl (content.len_set_pos m _ _))

/-- The entry parseLines stores under `k` is the last line with hash `k`. -/
theorem parseLines_get_iff (lines : List GoString) (k v : GoString) :
    (parseLines lines).1.get k = some v ↔
      (lines.filter (fun l => decide (EncodeToString (md5Sum l) = k))).getLast? = some v := by
  rw [parseLines_eq]
  show (storeAll content.empty lines).get k = some v ↔
    (lines.filter (fun l => decide (lineHash l = k))).getLast? = some v
  rw [storeAll_get]
  have hempty : content.empty.get k = none := rfl
  rw [hempty]
  cases (lines.filter (fun l => decide (lineHash l = k))).getLast? <;> simp

/-- Every key of the content set parseLines builds is the hash of the line stored under it. -/
theorem parseLines_key_hash (lines : List GoString) (k : GoString)
    (hk : k ∈ (parseLines lines).1.keys) :
    ∃ v, (parseLines lines).1.get k = some v ∧ EncodeToString (md5Sum v) = k := by
  obtain ⟨v, hv⟩ := (content.mem_keys_iff _ _).mp hk
  have hm := List.mem_of_getLast?_eq_some ((parseLines_get_iff lines k v).mp hv)
  rw [List.mem_filter] at hm
  exact ⟨v, hv, by simpa using hm.2⟩

/-! ## C5: parseLines -/

/-- C5: parseLines returns a nil error, and its content set maps `k` to `v` exactly when `v`
is the last of the lines whose hash (lowercase hex of its MD5) is `k`.  Hence every key is
the hash of its value, which is one of the lines; the hash of every line is a key; of the
lines with one hash the last occurrence is the one stored; and no key occurs twice. -/
theorem parseLines_spec (lines : List GoString) :
    (parseLines lines).2 = none ∧
    (∀ k v, (parseLines lines).1.get k = some v ↔
      (lines.filter (fun l => decide (EncodeToString (md5Sum l) = k))).getLast? = some v) ∧
    (∀ k v, (parseLines lines).1.get k = some v → EncodeToString (md5Sum v) = k ∧ v ∈ lines) ∧
    (∀ l, l ∈ lines → EncodeToString (md5Sum l) ∈ (parseLines lines).1.keys) ∧
    (∀ front l back, lines = front ++ l :: back →
      (∀ l', l' ∈ back → EncodeToString (md5Sum l') ≠ EncodeToString (md5Sum l)) →
      (parseLines lines).1.get (EncodeToString (md5Sum l)) = some l) ∧
    (parseLines lines).1.keys.Nodup := by
  have hget := parseLines_get_iff lines
  refine ⟨rfl, hget, ?_, ?_, ?_, ?_⟩
  · intro k v h
    have hm := List.mem_of_getLast?_eq_some ((hget k v).mp h)
    rw [List.mem_filter] at hm
    exact ⟨by simpa using hm.2, hm.1⟩
  · intro l hl
    rw [content.mem_keys_iff]
    have hne : (lines.filter (fun l' => decide (EncodeToString (md5Sum l') =
        EncodeToString (md5Sum l)))) ≠ [] := by
      intro h
      have : l ∈ lines.filter (fun l' => decide (EncodeToString (md5Sum l') =
          EncodeToString (md5Sum l))) := List.mem_filter.mpr ⟨hl, by simp⟩
      rw [h] at this
      cases this
    cases hlast : (lines.filter (fun l' => decide (EncodeToString (md5Sum l') =
        EncodeToString (md5Sum l)))).getLast? with
    | none => exact absurd (List.getLast?_eq_none_iff.mp hlast) hne
    | some v => exact ⟨v, (hget _ v).mpr hlast⟩
  · rintro front l back rfl hback
    rw [hget]
    have hb : back.filter (fun l' => decide (EncodeToString (md5Sum l') =
        EncodeToString (md5Sum l))) = [] := by
      rw [List.filter_eq_nil_iff]
      intro a ha
      simpa using hback a ha
    rw [List.filter_append, List.filter_cons, hb]
    simp
  · rw [parseLines_eq]
    exact storeAll_keys_nodup lines content.empty List.nodup_nil

/-- C5 on the lines "hello", "world": the second line is stored under its hash. -/
theorem parseLines_spec_witness :
    (parseLines [lit "hello", lit "world"]).1.get (EncodeToString (md5Sum (lit "world"))) =
      some (lit "world") :=
  (parseLines_spec [lit "hello", lit "world"]).2.2.2.2.1 [lit "hello"] (lit "world") [] rfl
    (fun _ h => absurd h (List.not_mem_nil _))

/-! ## Hashes are 32 lowercase hexadecimal digits -/

theorem hextable_isHexDigit : ∀ n, n < 16 → isHexDigit (hextable.getD n 0) = true := by
  decide

theorem EncodeToString_isHexDigit (src : GoString) :
    ∀ c, c ∈ EncodeToString src → isHexDigit c = true := by
  intro c hc
  unfold EncodeToString at hc
  rw [List.mem_flatMap] at hc
  obtain ⟨v, _, hv⟩ := hc
  have hlt : v.toNat < 256 := v.val.isLt
  rcases List.mem_cons.mp hv with h | h
  · rw [h]
    exact hextable_isHexDigit _ (by omega)
  · rw [List.mem_singleton.mp h]
    exact hextable_isHexDigit _ (by omega)

theorem EncodeToString_length (src : GoString) : (EncodeToString src).length = 2 * src.length := by
  unfold EncodeToString
  induction src with
  | nil => rfl
  | cons b bs ih =>
    rw [List.flatMap_cons, List.length_append, ih, List.length_cons]
    simp
    omega

theorem md5Sum_length (data : GoString) : (md5Sum data).length = 16 := by
  simp [md5Sum, le32]

theorem lineHash_length (line : GoString) : (EncodeToString (md5Sum line)).length = 32 := by
  rw [EncodeToString_length, md5Sum_length]

/-- A string of hexadecimal digits does not end in a byte that is no hexadecimal digit. -/
theorem hex_getLast? {h : GoString} (hh : ∀ c, c ∈ h → isHexDigit c = true) {d : UInt8}
    (hd : isHexDigit d = false) : h.getLast? ≠ some d := by
  intro hl
  have := hh d (List.mem_of_getLast?_eq_some hl)
  rw [hd] at this
  cases this

/-- None of the three suffixes is a suffix of a string of hexadecimal digits. -/
theorem hex_not_suffix {h : GoString} (hh : ∀ c, c ∈ h → isHexDigit c = true) :
    ¬ lit ".html" <:+ h ∧ ¬ lit ".json" <:+ h ∧ ¬ lit ".txt" <:+ h :=
  ⟨not_suffix_of_getLast? getLast?_html (hex_getLast? hh (by decide)),
    not_suffix_of_getLast? getLast?_json (hex_getLast? hh (by decide)),
    not_suffix_of_getLast? getLast?_txt (hex_getLast? hh (by decide))⟩

/-- Nor is one a suffix of "/" followed by a string of hexadecimal digits. -/
theorem slash_hex_not_suffix {h : GoString} (hh : ∀ c, c ∈ h → isHexDigit c = true) :
    ¬ lit ".html" <:+ lit "/" ++ h ∧ ¬ lit ".json" <:+ lit "/" ++ h ∧
      ¬ lit ".txt" <:+ lit "/" ++ h := by
  have key : ∀ d : UInt8, isHexDigit d = false → d ≠ 47 →
      (lit "/" ++ h).getLast? ≠ some d := by
    intro d hd hne hl
    have hm := List.mem_of_getLast?_eq_some hl
    rw [lit_slash] at hm
    rcases List.mem_append.mp hm with h1 | h1
    · exact hne (List.mem_singleton.mp h1)
    · have := hh d h1
      rw [hd] at this
      cases this
  exact ⟨not_suffix_of_getLast? getLast?_html (key _ (by decide) (by decide)),
    not_suffix_of_getLast? getLast?_json (key _ (by decide) (by decide)),
    not_suffix_of_getLast? getLast?_txt (key _ (by decide) (by decide))⟩

theorem parseLines_keys_hex (lines : List GoString) (k : GoString)
    (hk : k ∈ (parseLines lines).1.keys) :
    k.length = 32 ∧ ∀ c, c ∈ k → isHexDigit c = true := by
  obtain ⟨v, _, rfl⟩ := parseLines_key_hash lines k hk
  exact ⟨lineHash_length v, EncodeToString_isHexDigit _⟩

/-- The candidate hash of `"/" ++ h ++ s` is `h` when `h` is made of hexadecimal digits and
`s` is empty or one of the three suffixes. -/
theorem parseHash_hex (h s : GoString) (hh : ∀ c, c ∈ h → isHexDigit c = true)
    (hs : s ∈ [lit "", lit ".html", lit ".json", lit ".txt"]) :
    parseHash (lit "/" ++ h ++ s) = h := by
  obtain ⟨n1, n2, n3⟩ := hex_not_suffix hh
  have e : parseHash (lit "/" ++ h ++ s) = TrimSuffix (TrimSuffix (TrimSuffix
      (TrimPrefix (lit "/" ++ (h ++ s)) (lit "/")) (lit ".html")) (lit ".json")) (lit ".txt") := by
    rw [← List.append_assoc]
    rfl
  rw [e, TrimPrefix_append]
  simp only [List.mem_cons, List.mem_singleton, List.not_mem_nil, or_false] at hs
  rcases hs with rfl | rfl | rfl | rfl
  · have : h ++ lit "" = h := List.append_nil h
    rw [this, TrimSuffix_of_not_suffix _ _ n1, TrimSuffix_of_not_suffix _ _ n2,
      TrimSuffix_of_not_suffix _ _ n3]
  · rw [TrimSuffix_append, TrimSuffix_of_not_suffix _ _ n2, TrimSuffix_of_not_suffix _ _ n3]
  · rw [TrimSuffix_of_not_suffix _ _ (not_suffix_append getLast?_html getLast?_json
        (by decide) h), TrimSuffix_append, TrimSuffix_of_not_suffix _ _ n3]
  · rw [TrimSuffix_of_not_suffix _ _ (not_suffix_append getLast?_html getLast?_txt
        (by decide) h),
      TrimSuffix_of_not_suffix _ _ (not_suffix_append getLast?_json getLast?_txt (by decide) h),
      TrimSuffix_append]

/-- The content type of `"/" ++ h ++ s` for such `h` and `s` is decided by `s` alone. -/
theorem parseContentType_hex (h s : GoString) (hh : ∀ c, c ∈ h → isHexDigit c = true)
    (hs : s ∈ [lit "", lit ".html", lit ".json", lit ".txt"]) :
    parseContentType (lit "/" ++ h ++ s) = parseContentType s ∧
    parseContentType (lit "/" ++ h ++ s) =
      (if s = lit ".txt" then lit "text/plain"
       else if s = lit ".json" then lit "application/json" else lit "text/html") := by
  obtain ⟨n1, n2, n3⟩ := slash_hex_not_suffix hh
  simp only [List.mem_cons, List.mem_singleton, List.not_mem_nil, or_false] at hs
  rcases hs with rfl | rfl | rfl | rfl
  · have : lit "/" ++ h ++ lit "" = lit "/" ++ h := List.append_nil _
    rw [this, parseContentType_other _ n3 n2]
    exact ⟨by decide, by decide⟩
  · rw [parseContentType_other _ (not_suffix_append getLast?_txt getLast?_html (by decide) _)
      (not_suffix_append getLast?_json getLast?_html (by decide) _)]
    exact ⟨by decide, by decide⟩
  · rw [parseContentType_json _ (List.suffix_append _ _)]
    exact ⟨by decide, by decide⟩
  · rw [parseContentType_txt _ (List.suffix_append _ _)]
    exact ⟨by decide, by decide⟩

theorem buildKeys_eq (order : List GoString) : buildKeys order = order := by
  have h : ∀ acc : List GoString, order.foldl (fun keys k => keys ++ [k]) acc = acc ++ order := by
    induction order with
    | nil => intro acc; simp
    | cons k ks ih => intro acc; rw [List.foldl_cons, ih]; simp
  exact h []

theorem resolve_hit (data : content) (keys : List GoString) (intn : Nat) (hash val : GoString)
    (h : data.get hash = some val) : resolve data keys intn hash = some (hash, val) := by
  simp [resolve, h]

theorem resolve_miss (data : content) (keys : List GoString) (intn : Nat) (hash : GoString)
    (h : data.get hash = none) :
    resolve data keys intn hash = (keys[intn]?).map (fun k => (k, (data.get k).getD [])) := by
  simp only [resolve, h]
  cases keys[intn]? <;> rfl

theorem rootHandler_get (page : GoString → GoString → Except GoError GoString) (data : content)
    (keys : List GoString) (err : Option GoError) (intn : Nat) (rw : ResponseWriter)
    (path hash line : GoString)
    (h : resolve data keys intn (parseHash path) = some (hash, line)) :
    rootHandler page data keys err intn rw ⟨lit "GET", path⟩ =
      some (checkErr (render page (parseContentType path) err rw hash line)) := by
  simp [rootHandler, h]

theorem parseLines_hello :
    parseLines [lit "hello"] =
      (⟨[(lit "5d41402abc4b2a76b9719d911017c592", lit "hello")]⟩, none) := by
  decide!

/-- On a miss the "/" handler serves the entry of `keys[i]`, which is a key of the map. -/
theorem resolve_fallback (data : content) (order : List GoString) (i : Nat) (hash : GoString)
    (hord : order.Perm data.keys) (hi : i < (buildKeys order).length)
    (hmiss : data.get hash = none) :
    ∃ k line, (buildKeys order)[i]? = some k ∧ k ∈ data.keys ∧ data.get k = some line ∧
      resolve data (buildKeys order) i hash = some (k, line) := by
  have hk : (buildKeys order)[i] ∈ data.keys := by
    have h1 : (buildKeys order)[i] ∈ buildKeys order := List.getElem_mem _
    have h2 : ∀ x, x ∈ buildKeys order → x ∈ order := by
      rw [buildKeys_eq]
      exact fun _ h => h
    exact hord.mem_iff.mp (h2 _ h1)
  obtain ⟨line, hline⟩ := (content.mem_keys_iff _ _).mp hk
  refine ⟨(buildKeys order)[i], line, List.getElem?_eq_getElem hi, hk, hline, ?_⟩
  rw [resolve_miss _ _ _ _ hmiss, List.getElem?_eq_getElem hi]
  simp [hline]

theorem content.get_eq_none (data : content) (hash : GoString) (h : hash ∉ data.keys) :
    data.get hash = none := by
  cases hg : data.get hash with
  | none => rfl
  | some v => exact absurd ((content.mem_keys_iff _ _).mpr ⟨v, hg⟩) h

/-! ## C1: a present hash -/

/-- C1: for every key `h` of the content set parseLines builds and every `s` among "", ".html",
".json", ".txt", parseHash returns exactly `h` on `"/" ++ h ++ s`; a GET of that path
resolves to `h` and the line stored under `h`, whatever `rand.Intn` would return and whatever
the key index is; and the content type is the one parseContentType gives for `s`: text/html
for "" and ".html", application/json for ".json", text/plain for ".txt". -/
theorem present_hash_resolves (page : GoString → GoString → Except GoError GoString)
    (lines : List GoString) (h s : GoString) (keys : List GoString) (err : Option GoError)
    (intn : Nat) (rw : ResponseWriter)
    (hk : h ∈ (parseLines lines).1.keys)
    (hs : s ∈ [lit "", lit ".html", lit ".json", lit ".txt"]) :
    parseHash (lit "/" ++ h ++ s) = h ∧
    (∃ line, (parseLines lines).1.get h = some line ∧
      resolve (parseLines lines).1 keys intn (parseHash (lit "/" ++ h ++ s)) = some (h, line) ∧
      rootHandler page (parseLines lines).1 keys err intn rw ⟨lit "GET", lit "/" ++ h ++ s⟩ =
        some (checkErr (render page (parseContentType s) err rw h line))) ∧
    parseContentType (lit "/" ++ h ++ s) = parseContentType s ∧
    parseContentType (lit "/" ++ h ++ s) =
      (if s = lit ".txt" then lit "text/plain"
       else if s = lit ".json" then lit "application/json" else lit "text/html") := by
  have hhex := (parseLines_keys_hex lines h hk).2
  have hph := parseHash_hex h s hhex hs
  have hct := parseContentType_hex h s hhex hs
  obtain ⟨line, hline⟩ := (content.mem_keys_iff _ _).mp hk
  have hres : resolve (parseLines lines).1 keys intn (parseHash (lit "/" ++ h ++ s)) =
      some (h, line) := by
    rw [hph]
    exact resolve_hit _ _ _ _ _ hline
  refine ⟨hph, ⟨line, hline, hres, ?_⟩, hct.1, hct.2⟩
  rw [rootHandler_get page _ keys err intn rw _ h line hres, hct.1]

/-- C1 for the content set of the single line "hello" and the suffix ".json". -/
theorem present_hash_resolves_witness :
    lit "5d41402abc4b2a76b9719d911017c592" ∈ (parseLines [lit "hello"]).1.keys ∧
    parseHash (lit "/" ++ lit "5d41402abc4b2a76b9719d911017c592" ++ lit ".json") =
      lit "5d41402abc4b2a76b9719d911017c592" ∧
    parseContentType (lit "/" ++ lit "5d41402abc4b2a76b9719d911017c592" ++ lit ".json") =
      lit "application/json" :=
  have hk : lit "5d41402abc4b2a76b9719d911017c592" ∈ (parseLines [lit "hello"]).1.keys := by
    rw [parseLines_hello]
    decide
  have h := present_hash_resolves (fun _ _ => Except.ok []) [lit "hello"]
    (lit "5d41402abc4b2a76b9719d911017c592") (lit ".json") [] none 0 (ResponseWriter.fresh none)
    hk (by decide)
  ⟨hk, h.1, h.2.2.2.trans (by decide)⟩

/-! ## C2: an absent hash -/

/-- C2: for a non-empty content set, a key index built from its keys in any order, a
candidate hash that is no key and a value `i < len(keys)` of `rand.Intn`: `keys[i]` is in
bounds and is a key of the content set, the handler resolves to it and to the line stored
under it, and it is this resolved hash that goes to the renderer, not the requested one. -/
theorem absent_hash_falls_back (page : GoString → GoString → Except GoError GoString)
    (data : content) (order keys : List GoString) (path hash : GoString) (i : Nat)
    (err : Option GoError) (rw : ResponseWriter)
    (hne : data.len ≠ 0) (hord : order.Perm data.keys) (hkeys : keys = buildKeys order)
    (hpath : parseHash path = hash) (hmiss : hash ∉ data.keys) (hi : i < keys.length) :
    keys.length = data.len ∧ 0 < keys.length ∧
    ∃ k line, keys[i]? = some k ∧ k ∈ data.keys ∧ data.get k = some line ∧
      resolve data keys i hash = some (k, line) ∧
      rootHandler page data keys err i rw ⟨lit "GET", path⟩ =
        some (checkErr (render page (parseContentType path) err rw k line)) := by
  subst hkeys
  have hlen : (buildKeys order).length = data.len := by
    rw [buildKeys_eq, hord.length_eq]
    simp [content.keys, content.len]
  refine ⟨hlen, Nat.pos_of_ne_zero (by rw [hlen]; exact hne), ?_⟩
  obtain ⟨k, line, h1, h2, h3, h4⟩ :=
    resolve_fallback data order i hash hord hi (content.get_eq_none _ _ hmiss)
  refine ⟨k, line, h1, h2, h3, h4, ?_⟩
  rw [← hpath] at h4
  exact rootHandler_get page data _ err i rw path k line h4

/-- C2 on a two-entry content set whose keys the `range` delivers in reverse: a GET of
"/zzz.txt" with `rand.Intn` returning 1. -/
theorem absent_hash_falls_back_witness :
    [lit "b", lit "a"].length = (content.mk [(lit "a", lit "x"), (lit "b", lit "y")]).len ∧
    0 < [lit "b", lit "a"].length ∧
    ∃ k line, [lit "b", lit "a"][1]? = some k ∧
      k ∈ (content.mk [(lit "a", lit "x"), (lit "b", lit "y")]).keys ∧
      (content.mk [(lit "a", lit "x"), (lit "b", lit "y")]).get k = some line ∧
      resolve (content.mk [(lit "a", lit "x"), (lit "b", lit "y")]) [lit "b", lit "a"] 1
        (lit "zzz") = some (k, line) ∧
      rootHandler (fun _ _ => Except.ok []) (content.mk [(lit "a", lit "x"), (lit "b", lit "y")])
          [lit "b", lit "a"] none 1 (ResponseWriter.fresh none) ⟨lit "GET", lit "/zzz.txt"⟩ =
        some (checkErr (render (fun _ _ => Except.ok []) (parseContentType (lit "/zzz.txt")) none
          (ResponseWriter.fresh none) k line)) :=
  absent_hash_falls_back (fun _ _ => Except.ok [])
    (content.mk [(lit "a", lit "x"), (lit "b", lit "y")]) [lit "b", lit "a"] [lit "b", lit "a"]
    (lit "/zzz.txt") (lit "zzz") 1 none (ResponseWriter.fresh none)
    (by decide) (by decide) (by decide) (by decide) (by decide) (by decide)

/-! ## C9: the root path -/

/-- C9: for the content set parseLines builds from a non-empty list of lines, a GET of "/"
has the candidate hash "", which is no key because every key is 32 lowercase hexadecimal
digits; so the request is resolved by the fallback, to `keys[i]` and its line, and the
content type is "text/html". -/
theorem root_path_falls_back (page : GoString → GoString → Except GoError GoString)
    (lines : List GoString) (order : List GoString) (i : Nat) (err : Option GoError)
    (rw : ResponseWriter)
    (hne : lines ≠ []) (hord : order.Perm (parseLines lines).1.keys)
    (hi : i < (buildKeys order).length) :
    parseHash (lit "/") = lit "" ∧
    (∀ k, k ∈ (parseLines lines).1.keys → k.length = 32 ∧ ∀ c, c ∈ k → isHexDigit c = true) ∧
    lit "" ∉ (parseLines lines).1.keys ∧
    (parseLines lines).1.get (lit "") = none ∧
    0 < (parseLines lines).1.len ∧
    parseContentType (lit "/") = lit "text/html" ∧
    ∃ k line, (buildKeys order)[i]? = some k ∧ k ∈ (parseLines lines).1.keys ∧
      (parseLines lines).1.get k = some line ∧
      resolve (parseLines lines).1 (buildKeys order) i (parseHash (lit "/")) = some (k, line) ∧
      rootHandler page (parseLines lines).1 (buildKeys order) err i rw ⟨lit "GET", lit "/"⟩ =
        some (checkErr (render page (lit "text/html") err rw k line)) := by
  have hnot : lit "" ∉ (parseLines lines).1.keys := by
    intro h
    have := (parseLines_keys_hex lines _ h).1
    revert this
    decide
  have hnone := content.get_eq_none _ _ hnot
  have hph : parseHash (lit "/") = lit "" := by decide
  have hct : parseContentType (lit "/") = lit "text/html" := by decide
  have hpos : 0 < (parseLines lines).1.len := by
    rw [parseLines_eq]
    exact storeAll_len_pos lines content.empty (Or.inr hne)
  refine ⟨hph, parseLines_keys_hex lines, hnot, hnone, hpos, hct, ?_⟩
  obtain ⟨k, line, h1, h2, h3, h4⟩ :=
    resolve_fallback (parseLines lines).1 order i (lit "") hord hi hnone
  rw [← hph] at h4
  refine ⟨k, line, h1, h2, h3, h4, ?_⟩
  rw [rootHandler_get page _ _ err i rw _ k line h4, hct]

/-- C9 for the content set of the single line "hello". -/
theorem root_path_falls_back_witness :
    parseHash (lit "/") = lit "" ∧
    lit "" ∉ (parseLines [lit "hello"]).1.keys ∧
    parseContentType (lit "/") = lit "text/html" ∧
    ∃ k line, (buildKeys [lit "5d41402abc4b2a76b9719d911017c592"])[0]? = some k ∧
      k ∈ (parseLines [lit "hello"]).1.keys ∧
      (parseLines [lit "hello"]).1.get k = some line ∧
      resolve (parseLines [lit "hello"]).1 (buildKeys [lit "5d41402abc4b2a76b9719d911017c592"]) 0
        (parseHash (lit "/")) = some (k, line) ∧
      rootHandler (fun _ _ => Except.ok []) (parseLines [lit "hello"]).1
          (buildKeys [lit "5d41402abc4b2a76b9719d911017c592"]) none 0 (ResponseWriter.fresh none)
          ⟨lit "GET", lit "/"⟩ =
        some (checkErr (render (fun _ _ => Except.ok []) (lit "text/html") none
          (ResponseWriter.fresh none) k line)) :=
  have h := root_path_falls_back (fun _ _ => Except.ok []) [lit "hello"]
    [lit "5d41402abc4b2a76b9719d911017c592"] 0 none (ResponseWriter.fresh none)
    (by decide) (by rw [parseLines_hello]; exact List.Perm.refl _) (by decide)
  ⟨h.1, h.2.2.1, h.2.2.2.2.2.1, h.2.2.2.2.2.2⟩

/-! ## C8: the empty-data check -/

theorem scanContent_ok (lines : List GoString) :
    scanContent ⟨lines, none⟩ = parseLines lines := by
  have h : ∀ acc : List GoString,
      lines.foldl (fun lines text => lines ++ [text]) acc = acc ++ lines := by
    induction lines with
    | nil => intro acc; simp
    | cons k ks ih => intro acc; rw [List.foldl_cons, ih]; simp
  simp only [scanContent, h]
  rfl

/-- C8: when the lines are read without an I/O error, the empty-data check of `main` fires
exactly when there are no lines: parseLines gives a content set of size 0 on the empty list,
and of size at least 1 and at most the number of lines on every other list; the single line
"hello" gives a content set of size 1. -/
theorem startup_refused_iff_no_lines (lines : List GoString)
    (osOpen : GoString → Except GoError Scanner) :
    (startupCheck (scanContent ⟨lines, none⟩) = Startup.dataIsEmpty ↔ lines = []) ∧
    (mainStartup true (lit "") ⟨lines, none⟩ osOpen = Startup.dataIsEmpty ↔ lines = []) ∧
    (∀ (useStdin : Bool) (sourceFile : GoString) (stdin : Scanner), sourceFile ≠ [] →
      osOpen sourceFile = Except.ok ⟨lines, none⟩ →
      (mainStartup useStdin sourceFile stdin osOpen = Startup.dataIsEmpty ↔ lines = [])) ∧
    ((parseLines lines).1.len = 0 ↔ lines = []) ∧
    (parseLines []).1.len = 0 ∧
    (lines ≠ [] → 1 ≤ (parseLines lines).1.len ∧ (parseLines lines).1.len ≤ lines.length) ∧
    (parseLines [lit "hello"]).1.len = 1 := by
  have hle : (parseLines lines).1.len ≤ lines.length := by
    have := storeAll_len_le lines content.empty
    rw [parseLines_eq]
    simpa [content.len, content.empty] using this
  have hpos : lines ≠ [] → 1 ≤ (parseLines lines).1.len := fun hne => by
    rw [parseLines_eq]
    exact storeAll_len_pos lines content.empty (Or.inr hne)
  have hlen : (parseLines lines).1.len = 0 ↔ lines = [] := by
    constructor
    · intro h
      by_contra hne
      have := hpos hne
      omega
    · rintro rfl
      rfl
  have hcheck : startupCheck (scanContent ⟨lines, none⟩) = Startup.dataIsEmpty ↔ lines = [] := by
    rw [scanContent_ok, ← hlen]
    have herr : (parseLines lines).2 = none := rfl
    unfold startupCheck
    rw [herr]
    by_cases h0 : (parseLines lines).1.len = 0
    · simp [h0]
    · simp [h0]
  refine ⟨hcheck, ?_, ?_, hlen, rfl, fun hne => ⟨hpos hne, hle⟩, ?_⟩
  · have : mainStartup true (lit "") ⟨lines, none⟩ osOpen =
        startupCheck (scanContent ⟨lines, none⟩) := rfl
    rw [this]
    exact hcheck
  · intro useStdin sourceFile stdin hsrc hopen
    have hpos : sourceFile.length > 0 := List.length_pos.mpr hsrc
    have : mainStartup useStdin sourceFile stdin osOpen =
        startupCheck (scanContent ⟨lines, none⟩) := by
      simp only [mainStartup, loadFile, hopen, hpos, if_true]
    rw [this]
    exact hcheck
  · rw [parseLines_hello]
    rfl

/-- C8 on the lines "hello", "world": the content set has one or two entries. -/
theorem startup_refused_iff_no_lines_witness :
    1 ≤ (parseLines [lit "hello", lit "world"]).1.len ∧
    (parseLines [lit "hello", lit "world"]).1.len ≤ [lit "hello", lit "world"].length :=
  (startup_refused_iff_no_lines [lit "hello", lit "world"]
    (fun _ => Except.error [])).2.2.2.2.2.1 (by decide)

/-! ## C3: methods other than GET -/

/-- C3, the failing input: a POST of "/humans.txt" is answered by the "/humans.txt" handler,
which has no method check: the attribution text, content type "text/plain", the header
written by the first write, so status 200 and not 405.  The same POST to "/" is refused with 405 by the
"/" handler. -/
theorem humans_post_is_served (page : GoString → GoString → Except GoError GoString)
    (data : content) (keys : List GoString) (err : Option GoError) (intn : Nat) :
    ServeHTTP page data keys err intn (ResponseWriter.fresh none)
        ⟨lit "POST", lit "/humans.txt"⟩ =
      some (⟨some (lit "text/plain"), some 200, humans ++ lit "\n", none⟩, err) ∧
    (ResponseWriter.mk (some (lit "text/plain")) (some 200) (humans ++ lit "\n") none).status =
      200 ∧
    ServeHTTP page data keys err intn (ResponseWriter.fresh none) ⟨lit "POST", lit "/"⟩ =
      some (⟨some (lit "text/plain; charset=utf-8"), some 405, lit "unsupported method\n", none⟩,
        err) := by
  refine ⟨rfl, rfl, rfl⟩

/-! ## C6: the shared variable err -/

theorem ResponseWriter.Write_code (w : ResponseWriter) (b : GoString) :
    (w.Write b).1.code = some (w.code.getD 200) := by
  cases w with
  | mk ct code body we => cases code <;> cases we <;> rfl

theorem ResponseWriter.Write_contentType (w : ResponseWriter) (b : GoString) :
    (w.Write b).1.contentType = w.contentType := by
  cases w with
  | mk ct code body we => cases code <;> cases we <;> rfl

/-- Once the header is written, `http.Error` changes neither the status nor the content type
of the response; what was written stays at the front of the body. -/
theorem httpError_written (w : ResponseWriter) (e : GoString) (k c : Nat)
    (h : w.code = some c) :
    (httpError w e k).code = some c ∧ (httpError w e k).contentType = w.contentType ∧
      w.body <+: (httpError w e k).body := by
  cases w with
  | mk ct code body we =>
    cases h
    cases we with
    | none => exact ⟨rfl, rfl, List.prefix_append _ _⟩
    | some e' => exact ⟨rfl, rfl, List.prefix_refl _⟩

/-- The writer the render switch leaves does not depend on the value `err` had before. -/
theorem render_fst (page : GoString → GoString → Except GoError GoString)
    (ct : GoString) (err : Option GoError) (rw : ResponseWriter) (hash line : GoString) :
    (render page ct err rw hash line).1 = (render page ct none rw hash line).1 := by
  unfold render
  split_ifs <;> rfl

/-- A render switch that fails on its own leaves the same `err` whatever `err` was before. -/
theorem render_of_fail (page : GoString → GoString → Except GoError GoString)
    (ct : GoString) (err : Option GoError) (rw : ResponseWriter) (hash line : GoString)
    (h : (render page ct none rw hash line).2 ≠ none) :
    render page ct err rw hash line = render page ct none rw hash line := by
  unfold render at h ⊢
  by_cases h1 : ct = lit "application/json"
  · rw [if_pos h1, if_pos h1]
  · by_cases h2 : ct = lit "text/plain"
    · rw [if_neg h1, if_pos h2] at h
      exact absurd rfl h
    · rw [if_neg h1, if_neg h2, if_neg h1, if_neg h2]

/-- A render switch that succeeds on a fresh writer has written the header with status 200. -/
theorem render_written (page : GoString → GoString → Except GoError GoString)
    (ct : GoString) (writeErr : Option GoError) (hash line : GoString)
    (h : (render page ct none (ResponseWriter.fresh writeErr) hash line).2 = none) :
    (render page ct none (ResponseWriter.fresh writeErr) hash line).1.code = some 200 := by
  unfold render at h ⊢
  by_cases h1 : ct = lit "application/json"
  · rw [if_pos h1]
    exact ResponseWriter.Write_code _ _
  · by_cases h2 : ct = lit "text/plain"
    · rw [if_neg h1, if_pos h2]
      exact ResponseWriter.Write_code _ _
    · rw [if_neg h1, if_neg h2] at h ⊢
      unfold renderHTML at h ⊢
      cases hp : page hash line with
      | error e => rw [hp] at h; cases h
      | ok b => exact ResponseWriter.Write_code _ _

/-- After a render switch that wrote the header with status 200, the error check leaves the
status and the content type as they are and the rendered bytes at the front of the body. -/
theorem checkErr_written (rw : ResponseWriter) (err : Option GoError)
    (h : rw.code = some 200) :
    (checkErr (rw, err)).1.status = 200 ∧ (checkErr (rw, err)).1.contentType = rw.contentType ∧
      rw.body <+: (checkErr (rw, err)).1.body := by
  cases err with
  | none => exact ⟨by simp [checkErr, ResponseWriter.status, h], rfl, List.prefix_refl _⟩
  | some e =>
    obtain ⟨h1, h2, h3⟩ := httpError_written rw e 500 200 h
    exact ⟨by simp [checkErr, failRequest, ResponseWriter.status, h1], h2, h3⟩

theorem checkErr_render_status (page : GoString → GoString → Except GoError GoString)
    (ct : GoString) (err : Option GoError) (writeErr : Option GoError) (hash line : GoString) :
    (checkErr (render page ct err (ResponseWriter.fresh writeErr) hash line)).1.status =
      (checkErr (render page ct none (ResponseWriter.fresh writeErr) hash line)).1.status := by
  by_cases h : (render page ct none (ResponseWriter.fresh writeErr) hash line).2 = none
  · have hw := render_written page ct writeErr hash line h
    have hw' : (render page ct err (ResponseWriter.fresh writeErr) hash line).1.code =
        some 200 := by
      rw [render_fst]
      exact hw
    exact ((checkErr_written _ (render page ct err (ResponseWriter.fresh writeErr)
      hash line).2 hw').1).trans ((checkErr_written _ (render page ct none
      (ResponseWriter.fresh writeErr) hash line).2 hw).1).symm
  · rw [render_of_fail page ct err _ hash line h]

theorem ServeHTTP_status (page : GoString → GoString → Except GoError GoString)
    (data : content) (keys : List GoString) (err err' : Option GoError) (intn : Nat)
    (writeErr : Option GoError) (r : Request) :
    (ServeHTTP page data keys err intn (ResponseWriter.fresh writeErr) r).map
        (fun p => p.1.status) =
      (ServeHTTP page data keys err' intn (ResponseWriter.fresh writeErr) r).map
        (fun p => p.1.status) := by
  unfold ServeHTTP
  by_cases hp : r.path = lit "/humans.txt"
  · simp only [hp, if_true, Option.map_some']
  · simp only [hp, if_false]
    unfold rootHandler
    by_cases hm : r.method ≠ lit "GET"
    · rw [if_pos hm, if_pos hm]
      rfl
    · rw [if_neg hm, if_neg hm]
      cases resolve data keys intn (parseHash r.path) with
      | none => rfl
      | some hl =>
        simp only [Option.map_some']
        rw [checkErr_render_status page _ err, checkErr_render_status page _ err']

/-- What the stale `err` does change: a GET of a ".txt" path that arrives while `err` holds
the error `e` of an earlier request has `e` and a newline appended to its body, after its
own line, under its own status 200 and content type. -/
theorem stale_err_appended (page : GoString → GoString → Except GoError GoString)
    (data : content) (keys : List GoString) (e : GoError) (intn : Nat)
    (path hash line : GoString)
    (hres : resolve data keys intn (parseHash path) = some (hash, line))
    (htxt : lit ".txt" <:+ path) :
    rootHandler page data keys (some e) intn (ResponseWriter.fresh none) ⟨lit "GET", path⟩ =
      some (⟨some (lit "text/plain"), some 200, line ++ lit "\n" ++ (e ++ lit "\n"), none⟩,
        some e) := by
  rw [rootHandler_get page data keys (some e) intn _ path hash line hres,
    parseContentType_txt path htxt]
  rfl

/-- C6: in every sequence of requests handled one after another, the status of each response
depends only on that request: it is the status the same request gets when it is handled with
`err` nil, whatever `err` was left by the requests before it.  A GET whose own rendering
succeeds gets status 200, not 500, with the content type and, at the front of the body, the
bytes of its own rendering; a GET of a ".txt" path always does. -/
theorem status_depends_on_request_only (page : GoString → GoString → Except GoError GoString)
    (data : content) (keys : List GoString) :
    (∀ (err : Option GoError) (xs : List Exchange),
      (serveAll page data keys err xs).map (Option.map ResponseWriter.status) =
        xs.map (fun x => (ServeHTTP page data keys none x.intn
          (ResponseWriter.fresh x.writeErr) x.req).map (fun p => p.1.status))) ∧
    (∀ (err : Option GoError) (intn : Nat) (writeErr : Option GoError)
        (path hash line : GoString),
      resolve data keys intn (parseHash path) = some (hash, line) →
      (render page (parseContentType path) none (ResponseWriter.fresh writeErr) hash line).2 =
        none →
      ∃ rw err', rootHandler page data keys err intn (ResponseWriter.fresh writeErr)
          ⟨lit "GET", path⟩ = some (rw, err') ∧
        rw.status = 200 ∧ rw.status ≠ 500 ∧
        rw.contentType = (render page (parseContentType path) none
          (ResponseWriter.fresh writeErr) hash line).1.contentType ∧
        (render page (parseContentType path) none
          (ResponseWriter.fresh writeErr) hash line).1.body <+: rw.body) ∧
    (∀ (err : Option GoError) (intn : Nat) (writeErr : Option GoError)
        (path hash line : GoString),
      resolve data keys intn (parseHash path) = some (hash, line) → lit ".txt" <:+ path →
      ∃ rw err', rootHandler page data keys err intn (ResponseWriter.fresh writeErr)
          ⟨lit "GET", path⟩ = some (rw, err') ∧
        rw.status = 200 ∧ rw.status ≠ 500 ∧ rw.contentType = some (lit "text/plain")) := by
  have main : ∀ (err : Option GoError) (intn : Nat) (writeErr : Option GoError)
      (path hash line : GoString),
      resolve data keys intn (parseHash path) = some (hash, line) →
      (render page (parseContentType path) none (ResponseWriter.fresh writeErr) hash line).2 =
        none →
      ∃ rw err', rootHandler page data keys err intn (ResponseWriter.fresh writeErr)
          ⟨lit "GET", path⟩ = some (rw, err') ∧
        rw.status = 200 ∧ rw.status ≠ 500 ∧
        rw.contentType = (render page (parseContentType path) none
          (ResponseWriter.fresh writeErr) hash line).1.contentType ∧
        (render page (parseContentType path) none
          (ResponseWriter.fresh writeErr) hash line).1.body <+: rw.body := by
    intro err intn writeErr path hash line hres hown
    have hw := render_written page _ writeErr hash line hown
    have hfst := render_fst page (parseContentType path) err (ResponseWriter.fresh writeErr)
      hash line
    have hw' : (render page (parseContentType path) err (ResponseWriter.fresh writeErr)
        hash line).1.code = some 200 := by
      rw [hfst]
      exact hw
    obtain ⟨c1, c2, c3⟩ := checkErr_written _
      (render page (parseContentType path) err (ResponseWriter.fresh writeErr) hash line).2 hw'
    refine ⟨(checkErr (render page (parseContentType path) err (ResponseWriter.fresh writeErr)
        hash line)).1, (checkErr (render page (parseContentType path) err
        (ResponseWriter.fresh writeErr) hash line)).2, ?_, c1, ?_, ?_, ?_⟩
    · exact rootHandler_get page data keys err intn _ path hash line hres
    · rw [c1]
      decide
    · rw [← hfst]
      exact c2
    · rw [← hfst]
      exact c3
  refine ⟨?_, main, ?_⟩
  · intro err xs
    induction xs generalizing err with
    | nil => rfl
    | cons x xs ih =>
      have hs := ServeHTTP_status page data keys err none x.intn x.writeErr x.req
      cases hx : ServeHTTP page data keys err x.intn (ResponseWriter.fresh x.writeErr) x.req with
      | none =>
        rw [hx] at hs
        simp only [serveAll, hx, List.map_cons, ih err]
        rw [← hs]
        rfl
      | some p =>
        rw [hx] at hs
        simp only [serveAll, hx, List.map_cons, ih p.2]
        rw [← hs]
        rfl
  · intro err intn writeErr path hash line hres htxt
    have hct := parseContentType_txt path htxt
    have hown : (render page (parseContentType path) none (ResponseWriter.fresh writeErr)
        hash line).2 = none := by
      rw [hct]
      rfl
    obtain ⟨rw, err', h1, h2, h3, h4, _⟩ := main err intn writeErr path hash line hres hown
    refine ⟨rw, err', h1, h2, h3, ?_⟩
    rw [h4, hct]
    cases writeErr <;> rfl

/-- C6 on the content set of the single line "hello", with a template whose execution
fails: the GET of "/" ends with a rendering error and status 500 and leaves `err` set; the
GET of "/x.txt" handled next has status 200, the status it has when handled alone. -/
theorem status_depends_on_request_only_witness :
    (serveAll (fun _ _ => Except.error (lit "template: failed")) (parseLines [lit "hello"]).1
        [lit "5d41402abc4b2a76b9719d911017c592"] none
        [⟨⟨lit "GET", lit "/"⟩, 0, none⟩, ⟨⟨lit "GET", lit "/x.txt"⟩, 0, none⟩]).map
        (Option.map ResponseWriter.status) = [some 500, some 200] ∧
    (serveAll (fun _ _ => Except.error (lit "template: failed")) (parseLines [lit "hello"]).1
        [lit "5d41402abc4b2a76b9719d911017c592"] none
        [⟨⟨lit "GET", lit "/x.txt"⟩, 0, none⟩]).map
        (Option.map ResponseWriter.status) = [some 200] ∧
    ∃ rw err', rootHandler (fun _ _ => Except.error (lit "template: failed"))
        (parseLines [lit "hello"]).1 [lit "5d41402abc4b2a76b9719d911017c592"]
        (some (lit "template: failed")) 0 (ResponseWriter.fresh none)
        ⟨lit "GET", lit "/x.txt"⟩ = some (rw, err') ∧
      rw.status = 200 ∧ rw.status ≠ 500 ∧ rw.contentType = some (lit "text/plain") :=
  ⟨((status_depends_on_request_only (fun _ _ => Except.error (lit "template: failed"))
      (parseLines [lit "hello"]).1 [lit "5d41402abc4b2a76b9719d911017c592"]).1 none
      [⟨⟨lit "GET", lit "/"⟩, 0, none⟩, ⟨⟨lit "GET", lit "/x.txt"⟩, 0, none⟩]).trans
      (by rw [parseLines_hello]; rfl),
    ((status_depends_on_request_only (fun _ _ => Except.error (lit "template: failed"))
      (parseLines [lit "hello"]).1 [lit "5d41402abc4b2a76b9719d911017c592"]).1 none
      [⟨⟨lit "GET", lit "/x.txt"⟩, 0, none⟩]).trans (by rw [parseLines_hello]; rfl),
    (status_depends_on_request_only (fun _ _ => Except.error (lit "template: failed"))
      (parseLines [lit "hello"]).1 [lit "5d41402abc4b2a76b9719d911017c592"]).2.2
      (some (lit "template: failed")) 0 none (lit "/x.txt")
      (lit "5d41402abc4b2a76b9719d911017c592") (lit "hello")
      (by rw [parseLines_hello]; rfl) (by decide)⟩

/-! ## C10: renderJSON -/

theorem isPlain_htmlSafeSet (c : UInt8) (h : isPlain c = true) :
    c.toNat < 0x80 ∧ htmlSafeSet c = true := by
  unfold isPlain at h
  unfold htmlSafeSet
  simp only [Bool.and_eq_true, decide_eq_true_eq, Bool.not_eq_true', Bool.or_eq_false_iff,
    beq_eq_false_iff_ne, ne_eq] at h ⊢
  omega

theorem isHexDigit_isPlain (c : UInt8) (h : isHexDigit c = true) : isPlain c = true := by
  unfold isHexDigit at h
  unfold isPlain
  simp only [Bool.and_eq_true, decide_eq_true_eq, Bool.not_eq_true', Bool.or_eq_false_iff,
    beq_eq_false_iff_ne, ne_eq, Bool.or_eq_true] at h ⊢
  omega

/-- The encoder copies a string of plain characters unchanged. -/
theorem escapeString_plain (s : GoString) (hs : ∀ c, c ∈ s → isPlain c = true) :
    ∀ fuel, s.length ≤ fuel → escapeString fuel s = s := by
  induction s with
  | nil =>
    intro fuel _
    cases fuel <;> rfl
  | cons b rest ih =>
    intro fuel hfuel
    cases fuel with
    | zero => simp at hfuel
    | succ n =>
      obtain ⟨h1, h2⟩ := isPlain_htmlSafeSet b (hs b (List.mem_cons_self _ _))
      have hrest := ih (fun c hc => hs c (List.mem_cons_of_mem _ hc)) n
        (by simpa using hfuel)
      simp only [escapeString, h1, h2, if_true, hrest]

theorem marshalString_plain (s : GoString) (hs : ∀ c, c ∈ s → isPlain c = true) :
    marshalString s = lit "\"" ++ s ++ lit "\"" := by
  unfold marshalString
  rw [escapeString_plain s hs s.length (Nat.le_refl _)]

/-- C10: for a hash and a line made only of printable ASCII characters other than the
double quote, the backslash, the angle brackets and the ampersand, renderJSON hands `w.Write`
exactly the bytes `{"line":"<line>","hash":"<hash>"}`, field "line" first, no white space, no
final newline; it returns no error when the write succeeds (a first write also writes the
response header, with status 200).  Every hash
`hex.EncodeToString` produces is made of such characters.  For the content set of the single
line "hello", a GET of "/5d41402abc4b2a76b9719d911017c592.json" on a healthy connection has
the body `{"line":"hello","hash":"5d41402abc4b2a76b9719d911017c592"}`, the content type
"application/json" and no error. -/
theorem renderJSON_plain (w : ResponseWriter) (hash line : GoString)
    (hhash : ∀ c, c ∈ hash → isPlain c = true) (hline : ∀ c, c ∈ line → isPlain c = true) :
    renderJSON w hash line =
      w.Write (lit "\x7b\"line\":\"" ++ line ++ lit "\",\"hash\":\"" ++ hash ++ lit "\"\x7d") ∧
    (w.writeErr = none → renderJSON w hash line =
      ({ w with code := some (w.code.getD 200), body := w.body ++
          (lit "\x7b\"line\":\"" ++ line ++ lit "\",\"hash\":\"" ++ hash ++ lit "\"\x7d") },
        none)) ∧
    (∀ src c, c ∈ EncodeToString src → isPlain c = true) ∧
    (∀ (page : GoString → GoString → Except GoError GoString) (keys : List GoString)
        (err : Option GoError) (intn : Nat),
      rootHandler page (parseLines [lit "hello"]).1 keys err intn (ResponseWriter.fresh none)
          ⟨lit "GET", lit "/5d41402abc4b2a76b9719d911017c592.json"⟩ =
        some (⟨some (lit "application/json"), some 200,
          lit "\x7b\"line\":\"hello\",\"hash\":\"5d41402abc4b2a76b9719d911017c592\"\x7d", none⟩,
          none)) := by
  have hbytes : jsonMarshal line hash =
      lit "\x7b\"line\":\"" ++ line ++ lit "\",\"hash\":\"" ++ hash ++ lit "\"\x7d" := by
    unfold jsonMarshal
    rw [marshalString_plain line hline, marshalString_plain hash hhash]
    have e1 : lit "\x7b\"line\":\"" = lit "\x7b\"line\":" ++ lit "\"" := by decide
    have e2 : lit "\",\"hash\":\"" = lit "\"" ++ (lit ",\"hash\":" ++ lit "\"") := by decide
    have e3 : lit "\"\x7d" = lit "\"" ++ lit "\x7d" := by decide
    rw [e1, e2, e3]
    simp only [List.append_assoc]
  have hrender : renderJSON w hash line =
      w.Write (lit "\x7b\"line\":\"" ++ line ++ lit "\",\"hash\":\"" ++ hash ++ lit "\"\x7d") := by
    unfold renderJSON
    rw [hbytes]
  refine ⟨hrender, ?_, fun src c hc => isHexDigit_isPlain c (EncodeToString_isHexDigit src c hc),
    ?_⟩
  · intro hw
    rw [hrender]
    cases w with
    | mk ct code body we =>
      cases hw
      cases code <;> rfl
  · intro page keys err intn
    rw [parseLines_hello]
    rfl

/-- C10 for the line "hello" and its hash on a healthy writer. -/
theorem renderJSON_plain_witness :
    renderJSON (ResponseWriter.fresh none) (lit "5d41402abc4b2a76b9719d911017c592")
        (lit "hello") =
      (⟨none, some 200,
        lit "\x7b\"line\":\"hello\",\"hash\":\"5d41402abc4b2a76b9719d911017c592\"\x7d", none⟩,
        none) :=
  ((renderJSON_plain (ResponseWriter.fresh none) (lit "5d41402abc4b2a76b9719d911017c592")
    (lit "hello") (by decide) (by decide)).2.1 rfl).trans (by decide)

end Wholesome
